import Mathlib

/-!
Verification of the Translation Sync Engine (`scripts/auto_translate.py`).

The script keeps a per-language JSON catalog in sync with the English source
catalog `locales/en.json`.  We embed its logic shallowly:

* a JSON object is an association list `Catalog := List (String × String)`
  (Python dicts preserve insertion order, which the script relies on);
* the partitioning loop of `translate_text_partitioned` becomes
  `buildPartitions` / `partitions`;
* each API call is an oracle `Nat → Catalog → Option Catalog` mapping the
  call index and the request payload to the parsed response (`none` models a
  `json.JSONDecodeError`, in which case `translate_partition` returns `{}`);
* `runBatchList` threads the call counter through the batch loop, recording
  the trace of requests actually sent, and `runScript` models the whole
  process from module load (`TARGET_LANG = os.environ["TARGET_LANG"]`)
  through `main()`, reporting the exit status, whether the `git diff`
  subprocess ran, the request trace, and the file write (if any).
-/

namespace AutoTranslate

/-- A JSON object of string keys and string values, in insertion order. -/
abbrev Catalog := List (String × String)

/-- The keys of a catalog, in order. -/
def keys (c : Catalog) : List String := c.map Prod.fst

/-- Python dict lookup `c[k]` / `c.get(k)`: first binding of `k`. -/
def lookup (c : Catalog) (k : String) : Option String := List.lookup k c

/-- `LOCALES_DIR`-relative source language: `SOURCE_LANG = "en"`. -/
def SOURCE_LANG : String := "en"

/-- Size contribution of one entry: `len(key) + len(value)`. -/
def entrySize (kv : String × String) : Nat := kv.1.length + kv.2.length

/-- Cumulative character size of a batch. -/
def batchSize (b : Catalog) : Nat := (b.map entrySize).sum

/-- The partition loop of `translate_text_partitioned` (lines 109–123):
entries are appended to `current`; once the running `charCount` reaches the
threshold the current partition is closed and a fresh one started; a nonempty
leftover partition is appended at the end. -/
def buildPartitions (threshold : Nat) : Catalog → Catalog → Nat → List Catalog
  | [], current, _ => if current.isEmpty then [] else [current]
  | kv :: rest, current, charCount =>
    let current' := current ++ [kv]
    let charCount' := charCount + entrySize kv
    if threshold ≤ charCount' then
      current' :: buildPartitions threshold rest [] 0
    else
      buildPartitions threshold rest current' charCount'

/-- The list of partitions produced for a pending mapping. -/
def partitions (threshold : Nat) (pending : Catalog) : List Catalog :=
  buildPartitions threshold pending [] 0

/-- Python dict assignment `d[k] = v`: overwrite in place if present,
append otherwise. -/
def dictInsert (d : Catalog) (k v : String) : Catalog :=
  if (keys d).contains k then
    d.map (fun kv => if kv.1 == k then (kv.1, v) else kv)
  else
    d ++ [(k, v)]

/-- Python `d.update(u)`. -/
def dictUpdate (d u : Catalog) : Catalog :=
  u.foldl (fun acc kv => dictInsert acc kv.1 kv.2) d

/-- `translate_partition`: `json.loads` of the response, or `{}` on a
`JSONDecodeError` (lines 141–150). -/
def parseResponse (resp : Option Catalog) : Catalog := resp.getD []

/-- The batch loop of `translate_text_partitioned` (lines 125–138): for each
partition, call the API; a falsy result triggers exactly one retry with the
identical payload; a second falsy result raises `ValueError` (modelled as
`none`).  Returns the accumulated `translated_data` and the request trace. -/
def runBatchList (oracle : Nat → Catalog → Option Catalog) :
    List Catalog → Nat → Catalog → Option Catalog × List (Nat × Catalog)
  | [], _, acc => (some acc, [])
  | part :: rest, n, acc =>
    let t1 := parseResponse (oracle n part)
    if t1.isEmpty then
      let t2 := parseResponse (oracle (n + 1) part)
      if t2.isEmpty then
        (none, [(n, part), (n + 1, part)])
      else
        let r := runBatchList oracle rest (n + 2) (dictUpdate acc t2)
        (r.1, [(n, part), (n + 1, part)] ++ r.2)
    else
      let r := runBatchList oracle rest (n + 1) (dictUpdate acc t1)
      (r.1, [(n, part)] ++ r.2)

/-- `translate_text_partitioned(client, json_data, chars_per_partition)`:
empty input returns `{}` with no API call; otherwise the partitions are
translated in order. -/
def translate_text_partitioned (oracle : Nat → Catalog → Option Catalog)
    (json_data : Catalog) (chars_per_partition : Nat) :
    Option Catalog × List (Nat × Catalog) :=
  if json_data.isEmpty then (some [], [])
  else runBatchList oracle (partitions chars_per_partition json_data) 0 []

/-- Stale-key pruning (line 179):
`{k: v for k, v in target_data.items() if k in all_keys}`. -/
def pruneTarget (target source : Catalog) : Catalog :=
  target.filter fun kv => (keys source).contains kv.1

/-- The pending set (line 181):
`{k: all_keys[k] for k in all_keys if k not in target_data or k in changes}`. -/
def pendingKeys (source target : Catalog) (changes : List String) : Catalog :=
  source.filter fun kv => !(keys target).contains kv.1 || changes.contains kv.1

/-- The merge loop of `main` (lines 192–197): iterate the source keys in
order; take the freshly translated value if present, otherwise the
pre-existing target value, otherwise drop the key. -/
def mergeCatalogs (source translated target : Catalog) : Catalog :=
  source.filterMap fun kv =>
    match lookup translated kv.1 with
    | some v => some (kv.1, v)
    | none =>
      match lookup target kv.1 with
      | some v => some (kv.1, v)
      | none => none

/-- The environment the script reads: `TARGET_LANG` (read at module load,
`KeyError` if absent), presence of `OPENAI_API_KEY`, and
`GITHUB_EVENT_NAME`. -/
structure Env where
  targetLang : Option String
  apiKeyPresent : Bool
  eventName : Option String
deriving DecidableEq, Repr

/-- Process exit status. -/
inductive ExitStatus where
  | success
  | failure
deriving DecidableEq, Repr

/-- Observable outcome of one run: exit status, whether the `git diff`
subprocess of `get_changed_keys` ran, the API request trace, and the file
content written to `locales/<lang>.json` (`none` = no write). -/
structure RunResult where
  status : ExitStatus
  ranDiff : Bool
  requests : List (Nat × Catalog)
  written : Option Catalog
deriving DecidableEq, Repr

/-- `get_changed_keys` skips the diff on a `workflow_dispatch` event. -/
def ranDiffFlag (env : Env) : Bool :=
  !(env.eventName == some "workflow_dispatch")

/-- The changed-key list `main` actually uses: empty on `workflow_dispatch`,
otherwise the keys parsed out of the `git diff` output. -/
def effChanges (env : Env) (diffChanges : List String) : List String :=
  if env.eventName == some "workflow_dispatch" then [] else diffChanges

/-- The in-memory `target_data` after loading and pruning (lines 175–185):
pruned existing file, or `{}` when the file is absent. -/
def targetDataOfRun (source : Catalog) (targetFile : Option Catalog) : Catalog :=
  match targetFile with
  | some td => pruneTarget td source
  | none => []

/-- The `json_to_translate` mapping of `main` (lines 181–185): keys missing
from the (pruned) target or flagged as changed; all keys when the target
file is absent. -/
def pendingOfRun (env : Env) (source : Catalog) (targetFile : Option Catalog)
    (diffChanges : List String) : Catalog :=
  match targetFile with
  | some td => pendingKeys source (pruneTarget td source) (effChanges env diffChanges)
  | none => source

/-- The whole script: module load (`os.environ["TARGET_LANG"]`, a `KeyError`
when absent) followed by `main()` (lines 153–203), with the source catalog,
the on-disk target catalog, the parsed diff output and the API responses
supplied as inputs. -/
def runScript (env : Env) (source : Catalog) (targetFile : Option Catalog)
    (diffChanges : List String) (oracle : Nat → Catalog → Option Catalog) :
    RunResult :=
  match env.targetLang with
  | none => { status := .failure, ranDiff := false, requests := [], written := none }
  | some t =>
    if t = "" then
      { status := .success, ranDiff := false, requests := [], written := none }
    else if t = SOURCE_LANG then
      { status := .success, ranDiff := false, requests := [], written := none }
    else if env.apiKeyPresent = false then
      { status := .failure, ranDiff := false, requests := [], written := none }
    else
      match translate_text_partitioned oracle
          (pendingOfRun env source targetFile diffChanges) 5000 with
      | (none, reqs) =>
        { status := .failure, ranDiff := ranDiffFlag env, requests := reqs,
          written := none }
      | (some translated, reqs) =>
        { status := .success, ranDiff := ranDiffFlag env, requests := reqs,
          written := some (mergeCatalogs source translated
            (targetDataOfRun source targetFile)) }

/-! ### Partitioning lemmas -/

theorem batchSize_cons (kv : String × String) (l : Catalog) :
    batchSize (kv :: l) = entrySize kv + batchSize l := by
  simp [batchSize]

theorem batchSize_concat (l : Catalog) (kv : String × String) :
    batchSize (l ++ [kv]) = batchSize l + entrySize kv := by
  simp [batchSize]

theorem batchSize_dropLast_le (l : Catalog) : batchSize l.dropLast ≤ batchSize l := by
  induction l with
  | nil => simp
  | cons kv rest ih =>
    cases rest with
    | nil => simp [batchSize]
    | cons kv2 rest2 =>
      rw [List.dropLast_cons₂, batchSize_cons, batchSize_cons]
      exact Nat.add_le_add_left ih _

theorem buildPartitions_flatten (thr : Nat) :
    ∀ (rest current : Catalog) (cnt : Nat),
      (buildPartitions thr rest current cnt).flatten = current ++ rest := by
  intro rest
  induction rest with
  | nil =>
    intro current cnt
    simp only [buildPartitions]
    split
    · next h => simp [List.isEmpty_iff.mp h]
    · simp
  | cons kv rest ih =>
    intro current cnt
    simp only [buildPartitions]
    split
    · simp [ih]
    · simp [ih]

theorem buildPartitions_size_bound (thr : Nat) (hthr : 0 < thr) :
    ∀ (rest current : Catalog) (cnt : Nat), cnt = batchSize current → cnt < thr →
      ∀ b ∈ buildPartitions thr rest current cnt, batchSize b.dropLast < thr := by
  intro rest
  induction rest with
  | nil =>
    intro current cnt hsz hlt b hb
    simp only [buildPartitions] at hb
    split at hb
    · simp at hb
    · simp only [List.mem_singleton] at hb
      subst hb
      exact Nat.lt_of_le_of_lt (batchSize_dropLast_le b) (hsz ▸ hlt)
  | cons kv rest ih =>
    intro current cnt hsz hlt b hb
    simp only [buildPartitions] at hb
    split at hb
    · rcases List.mem_cons.mp hb with h | h
      · subst h
        rw [List.dropLast_concat]
        exact hsz ▸ hlt
      · exact ih [] 0 rfl hthr b h
    · next h =>
      exact ih (current ++ [kv]) (cnt + entrySize kv)
        (by rw [batchSize_concat, hsz]) (Nat.lt_of_not_le h) b hb

/-! ### Claims C3 and C4 -/

/-- Claim C3: for every pending mapping and every positive size threshold,
concatenating in order the batches produced by `translate_text_partitioned`'s
partitioning step reconstructs the original pending mapping exactly — no key
lost, no duplication, and iteration order preserved across batch
boundaries. -/
theorem partitions_flatten_eq (thr : Nat) (pending : Catalog) (_h : 0 < thr) :
    (partitions thr pending).flatten = pending := by
  simpa using buildPartitions_flatten thr pending [] 0

theorem partitions_flatten_eq_witness :
    0 < 10 ∧ (partitions 10 [("a", "b"), ("cc", "dd")]).flatten = [("a", "b"), ("cc", "dd")] :=
  ⟨by decide, partitions_flatten_eq 10 [("a", "b"), ("cc", "dd")] (by decide)⟩

/-- Claim C4, counterexample: with threshold 10 and two entries of size 6
each, the partition loop closes the batch only after the running count has
reached the threshold, so the single produced batch has size 12 > 10 while
holding two entries — it is not a lone oversized entry. -/
theorem partition_batch_over_threshold_cex :
    partitions 10 [("aaa", "aaa"), ("bbb", "bbb")] = [[("aaa", "aaa"), ("bbb", "bbb")]] ∧
    10 < batchSize [("aaa", "aaa"), ("bbb", "bbb")] ∧
    ([("aaa", "aaa"), ("bbb", "bbb")] : Catalog).length ≠ 1 := by
  decide

/-- Claim C4, amended: a batch may exceed the threshold by (and only by) the
contribution of its final entry: for every positive threshold, every batch
produced by the partitioning step has cumulative size strictly below the
threshold once its last entry is removed.  In particular an entry whose own
size reaches the threshold when the current batch is empty is placed alone
in its own batch. -/
theorem partition_batch_size_bound (thr : Nat) (pending : Catalog) (h : 0 < thr) :
    ∀ b ∈ partitions thr pending, batchSize b.dropLast < thr :=
  buildPartitions_size_bound thr h pending [] 0 rfl h

theorem partition_batch_size_bound_witness :
    0 < 4 ∧ ∀ b ∈ partitions 4 [("a", "bb"), ("c", "dd")], batchSize b.dropLast < 4 :=
  ⟨by decide, partition_batch_size_bound 4 [("a", "bb"), ("c", "dd")] (by decide)⟩

/-! ### Lookup and merge lemmas -/

theorem keys_cons (kv : String × String) (l : Catalog) :
    keys (kv :: l) = kv.1 :: keys l := rfl

theorem lookup_cons (a b k : String) (l : Catalog) :
    lookup ((a, b) :: l) k = if k == a then some b else lookup l k := by
  simp only [lookup, List.lookup]
  cases h : k == a <;> simp

theorem lookup_isSome_iff (c : Catalog) (k : String) :
    (lookup c k).isSome = true ↔ k ∈ keys c := by
  induction c with
  | nil => simp [lookup, List.lookup, keys]
  | cons kv rest ih =>
    obtain ⟨a, b⟩ := kv
    rw [lookup_cons, keys_cons]
    by_cases h : k = a <;> simp [h, ih]

theorem lookup_eq_none_iff (c : Catalog) (k : String) :
    lookup c k = none ↔ k ∉ keys c := by
  rw [← lookup_isSome_iff]
  cases lookup c k <;> simp

theorem keys_filterMap_sublist (f : String × String → Option (String × String))
    (hf : ∀ kv w, f kv = some w → w.1 = kv.1) (s : Catalog) :
    (keys (s.filterMap f)).Sublist (keys s) := by
  induction s with
  | nil => simp [keys]
  | cons kv rest ih =>
    rw [List.filterMap_cons]
    cases h : f kv with
    | none => exact ih.trans ((keys rest).sublist_cons_self kv.1)
    | some w =>
      rw [keys_cons, keys_cons, hf kv w h]
      exact ih.cons₂ kv.1

theorem mergeCatalogs_key_preserving (tr tgt : Catalog) (kv w : String × String)
    (h : (match lookup tr kv.1 with
          | some v => some (kv.1, v)
          | none =>
            match lookup tgt kv.1 with
            | some v => some (kv.1, v)
            | none => none) = some w) : w.1 = kv.1 := by
  cases h1 : lookup tr kv.1 with
  | some v => rw [h1] at h; cases h; rfl
  | none =>
    rw [h1] at h
    cases h2 : lookup tgt kv.1 with
    | some v => rw [h2] at h; cases h; rfl
    | none => rw [h2] at h; cases h

theorem keys_mergeCatalogs_sublist (s tr tgt : Catalog) :
    (keys (mergeCatalogs s tr tgt)).Sublist (keys s) :=
  keys_filterMap_sublist _ (mergeCatalogs_key_preserving tr tgt) s

theorem lookup_mergeCatalogs (s tr tgt : Catalog) (hnd : (keys s).Nodup) (k : String)
    (hk : k ∈ keys s) :
    lookup (mergeCatalogs s tr tgt) k =
      match lookup tr k with
      | some v => some v
      | none => lookup tgt k := by
  induction s with
  | nil => simp [keys] at hk
  | cons kv rest ih =>
    obtain ⟨a, b⟩ := kv
    rw [keys_cons] at hnd hk
    rw [List.nodup_cons] at hnd
    rcases List.mem_cons.mp hk with rfl | hmem
    · cases h1 : lookup tr k with
      | some v =>
        simp only [mergeCatalogs, List.filterMap_cons, h1]
        rw [lookup_cons]
        simp
      | none =>
        cases h2 : lookup tgt k with
        | some v =>
          simp only [mergeCatalogs, List.filterMap_cons, h1, h2]
          rw [lookup_cons]
          simp
        | none =>
          simp only [mergeCatalogs, List.filterMap_cons, h1, h2]
          rw [lookup_eq_none_iff]
          intro hc
          exact hnd.1 ((keys_mergeCatalogs_sublist rest tr tgt).subset hc)
    · have hne : k ≠ a := fun h => hnd.1 (h ▸ hmem)
      have ihv := ih hnd.2 hmem
      cases h1 : lookup tr a with
      | some v =>
        simp only [mergeCatalogs, List.filterMap_cons, h1]
        rw [lookup_cons]
        simp only [beq_iff_eq, hne, if_false]
        exact ihv
      | none =>
        cases h2 : lookup tgt a with
        | some v =>
          simp only [mergeCatalogs, List.filterMap_cons, h1, h2]
          rw [lookup_cons]
          simp only [beq_iff_eq, hne, if_false]
          exact ihv
        | none =>
          simp only [mergeCatalogs, List.filterMap_cons, h1, h2]
          exact ihv

theorem mem_keys_mergeCatalogs (s tr tgt : Catalog) (k : String) (hk : k ∈ keys s)
    (h : k ∈ keys tr ∨ k ∈ keys tgt) : k ∈ keys (mergeCatalogs s tr tgt) := by
  induction s with
  | nil => simp [keys] at hk
  | cons kv rest ih =>
    obtain ⟨a, b⟩ := kv
    rw [keys_cons] at hk
    rcases List.mem_cons.mp hk with rfl | hmem
    · cases h1 : lookup tr k with
      | some v =>
        simp only [mergeCatalogs, List.filterMap_cons, h1]
        exact List.mem_cons_self _ _
      | none =>
        have htgt : k ∈ keys tgt := by
          rcases h with htr | htgt
          · rw [← lookup_isSome_iff, h1] at htr; cases htr
          · exact htgt
        obtain ⟨v, h2⟩ := Option.isSome_iff_exists.mp ((lookup_isSome_iff tgt k).mpr htgt)
        simp only [mergeCatalogs, List.filterMap_cons, h1, h2]
        exact List.mem_cons_self _ _
    · have ihv := ih hmem
      cases h1 : lookup tr a with
      | some v =>
        simp only [mergeCatalogs, List.filterMap_cons, h1]
        exact List.mem_cons_of_mem _ ihv
      | none =>
        cases h2 : lookup tgt a with
        | some v =>
          simp only [mergeCatalogs, List.filterMap_cons, h1, h2]
          exact List.mem_cons_of_mem _ ihv
        | none =>
          simp only [mergeCatalogs, List.filterMap_cons, h1, h2]
          exact ihv

/-! ### Claim C1 -/

/-- Claim C1: for every source catalog (with the distinct keys of a JSON
object), every pre-existing target catalog, and every translated mapping,
the merged catalog built by `main`'s final loop follows the source catalog's
key order, and each source key gets the newly translated value when one was
produced, falling back to the pre-existing target value otherwise — so a
fresh translation always overwrites a stale value for the same key. -/
theorem mergeCatalogs_order_and_values (source tr tgt : Catalog)
    (hnd : (keys source).Nodup) :
    (keys (mergeCatalogs source tr tgt)).Sublist (keys source) ∧
    ∀ k ∈ keys source,
      lookup (mergeCatalogs source tr tgt) k =
        match lookup tr k with
        | some v => some v
        | none => lookup tgt k :=
  ⟨keys_mergeCatalogs_sublist source tr tgt,
   fun k hk => lookup_mergeCatalogs source tr tgt hnd k hk⟩

theorem mergeCatalogs_order_and_values_witness :
    (keys [("a", "x"), ("b", "y")]).Nodup ∧
    ((keys (mergeCatalogs [("a", "x"), ("b", "y")] [("a", "T")] [("b", "Z"), ("a", "OLD")])).Sublist
      (keys [("a", "x"), ("b", "y")]) ∧
     ∀ k ∈ keys [("a", "x"), ("b", "y")],
       lookup (mergeCatalogs [("a", "x"), ("b", "y")] [("a", "T")] [("b", "Z"), ("a", "OLD")]) k =
         match lookup [("a", "T")] k with
         | some v => some v
         | none => lookup [("b", "Z"), ("a", "OLD")] k) :=
  ⟨by decide,
   mergeCatalogs_order_and_values [("a", "x"), ("b", "y")] [("a", "T")]
     [("b", "Z"), ("a", "OLD")] (by decide)⟩

/-! ### Run-level lemmas -/

theorem runScript_written_structure (env : Env) (source : Catalog) (tf : Option Catalog)
    (ch : List String) (oracle : Nat → Catalog → Option Catalog) (c : Catalog)
    (hw : (runScript env source tf ch oracle).written = some c) :
    ∃ translated,
      (translate_text_partitioned oracle (pendingOfRun env source tf ch) 5000).1
        = some translated ∧
      c = mergeCatalogs source translated (targetDataOfRun source tf) := by
  unfold runScript at hw
  cases henv : env.targetLang with
  | none => rw [henv] at hw; simp at hw
  | some t =>
    rw [henv] at hw
    by_cases h1 : t = ""
    · simp [h1] at hw
    · by_cases h2 : t = SOURCE_LANG
      · simp [h1, h2] at hw
      · by_cases h3 : env.apiKeyPresent = false
        · simp [h1, h2, h3] at hw
        · simp only [if_neg h1, if_neg h2, if_neg h3] at hw
          rcases htr : translate_text_partitioned oracle (pendingOfRun env source tf ch) 5000
            with ⟨res, reqs⟩
          rw [htr] at hw
          cases res with
          | none => simp at hw
          | some translated =>
            refine ⟨translated, rfl, ?_⟩
            have hw' : (some (mergeCatalogs source translated (targetDataOfRun source tf))
                : Option Catalog) = some c := hw
            exact (Option.some.inj hw').symm

theorem runScript_failure_no_write (env : Env) (source : Catalog) (tf : Option Catalog)
    (ch : List String) (oracle : Nat → Catalog → Option Catalog)
    (hst : (runScript env source tf ch oracle).status = ExitStatus.failure) :
    (runScript env source tf ch oracle).written = none := by
  unfold runScript at hst ⊢
  cases henv : env.targetLang with
  | none => rfl
  | some t =>
    rw [henv] at hst
    by_cases h1 : t = ""
    · simp [h1]
    · by_cases h2 : t = SOURCE_LANG
      · simp [h1, h2]
      · by_cases h3 : env.apiKeyPresent = false
        · simp [h1, h2, h3]
        · simp only [if_neg h1, if_neg h2, if_neg h3] at hst ⊢
          rcases htr : translate_text_partitioned oracle (pendingOfRun env source tf ch) 5000
            with ⟨res, reqs⟩
          rw [htr] at hst
          cases res with
          | none => rfl
          | some translated => simp at hst

/-! ### Claims C2 and C9 -/

/-- Claim C2: for every target catalog containing keys absent from the
source catalog, after a completed run those keys are absent from the
written output catalog, whether or not any key needed translation:
the target is pruned before the merge, and the merge loop iterates only
over source keys. -/
theorem stale_keys_absent_from_output (env : Env) (source td : Catalog)
    (ch : List String) (oracle : Nat → Catalog → Option Catalog) (c : Catalog)
    (k : String)
    (hw : (runScript env source (some td) ch oracle).written = some c)
    (_hstale : k ∈ keys td) (hk : k ∉ keys source) : k ∉ keys c := by
  obtain ⟨tr2, -, rfl⟩ := runScript_written_structure env source (some td) ch oracle c hw
  intro hc
  exact hk ((keys_mergeCatalogs_sublist source tr2 _).subset hc)

theorem stale_keys_absent_from_output_witness :
    ((runScript ⟨some "fr", true, some "workflow_dispatch"⟩ [("a", "x")]
        (some [("a", "y"), ("old", "z")]) [] (fun _ q => some q)).written
      = some [("a", "y")]) ∧
    "old" ∈ keys [("a", "y"), ("old", "z")] ∧ "old" ∉ keys [("a", "x")] ∧
    "old" ∉ keys [("a", "y")] :=
  ⟨by decide, by decide, by decide,
   stale_keys_absent_from_output ⟨some "fr", true, some "workflow_dispatch"⟩
     [("a", "x")] [("a", "y"), ("old", "z")] [] (fun _ q => some q) [("a", "y")] "old"
     (by decide) (by decide) (by decide)⟩

/-- Claim C9: whatever the translator returns — including responses whose
key set differs from the batch that was sent — every key of the merged
output catalog written to disk belongs to the source catalog: extra keys in
a translation response are silently discarded by the merge loop. -/
theorem output_keys_subset_source (env : Env) (source : Catalog) (tf : Option Catalog)
    (ch : List String) (oracle : Nat → Catalog → Option Catalog) (c : Catalog)
    (hw : (runScript env source tf ch oracle).written = some c) :
    ∀ k ∈ keys c, k ∈ keys source := by
  obtain ⟨tr2, -, rfl⟩ := runScript_written_structure env source tf ch oracle c hw
  exact fun k hk => (keys_mergeCatalogs_sublist source tr2 _).subset hk

theorem output_keys_subset_source_witness :
    ((runScript ⟨some "fr", true, some "workflow_dispatch"⟩ [("a", "x")] none []
        (fun _ _ => some [("a", "T"), ("bogus", "B")])).written = some [("a", "T")]) ∧
    ∀ k ∈ keys [("a", "T")], k ∈ keys [("a", "x")] :=
  ⟨by decide,
   output_keys_subset_source ⟨some "fr", true, some "workflow_dispatch"⟩ [("a", "x")]
     none [] (fun _ _ => some [("a", "T"), ("bogus", "B")]) [("a", "T")] (by decide)⟩

/-! ### Claim C10 -/

/-- Claim C10: when the configured target language equals the source
language `"en"`, the run exits successfully without running the diff
subprocess, without any translation API call, and without writing any
file. -/
theorem en_target_run (env : Env) (source : Catalog) (tf : Option Catalog)
    (ch : List String) (oracle : Nat → Catalog → Option Catalog)
    (h : env.targetLang = some SOURCE_LANG) :
    runScript env source tf ch oracle =
      { status := .success, ranDiff := false, requests := [], written := none } := by
  unfold runScript
  rw [h]
  simp [SOURCE_LANG]

theorem en_target_run_witness :
    (Env.targetLang ⟨some "en", true, none⟩ = some SOURCE_LANG) ∧
    runScript ⟨some "en", true, none⟩ [("a", "Apple")] none [] (fun _ _ => none) =
      { status := .success, ranDiff := false, requests := [], written := none } :=
  ⟨by decide,
   en_target_run ⟨some "en", true, none⟩ [("a", "Apple")] none [] (fun _ _ => none)
     (by decide)⟩

/-! ### Claim C8 -/

/-- Claim C8, counterexample: with `TARGET_LANG = "en"` and the API
credential absent, the run exits successfully — the source-language
short-circuit precedes the credential check — so a run with an absent
required credential is not always fatal. -/
theorem missing_credential_not_fatal_cex :
    (Env.apiKeyPresent ⟨some "en", false, none⟩ = false) ∧
    (runScript ⟨some "en", false, none⟩ [("a", "Apple")] none []
      (fun _ _ => none)).status = ExitStatus.success := by
  decide

/-- Claim C8, amended: if the `TARGET_LANG` environment variable is absent
the script dies at module load with a `KeyError` (non-zero termination)
before any work; if the API credential is absent and the target language is
present, nonempty and different from the source language, `main` raises
before the diff subprocess, any translation request, or any file write.
(When the target language is empty or equals the source language, the run
instead exits successfully before the credential is consulted.) -/
theorem config_error_aborts (env : Env) (source : Catalog) (tf : Option Catalog)
    (ch : List String) (oracle : Nat → Catalog → Option Catalog)
    (h : env.targetLang = none ∨
      (env.apiKeyPresent = false ∧
        ∃ t, env.targetLang = some t ∧ t ≠ "" ∧ t ≠ SOURCE_LANG)) :
    runScript env source tf ch oracle =
      { status := .failure, ranDiff := false, requests := [], written := none } := by
  rcases h with h | ⟨hkey, t, ht, h1, h2⟩
  · unfold runScript
    rw [h]
  · unfold runScript
    rw [ht]
    simp [h1, h2, hkey]

theorem config_error_aborts_witness :
    (Env.targetLang ⟨none, true, none⟩ = none ∨
      (Env.apiKeyPresent ⟨none, true, none⟩ = false ∧
        ∃ t, Env.targetLang ⟨none, true, none⟩ = some t ∧ t ≠ "" ∧ t ≠ SOURCE_LANG)) ∧
    runScript ⟨none, true, none⟩ [("a", "Apple")] none [] (fun _ _ => none) =
      { status := .failure, ranDiff := false, requests := [], written := none } :=
  ⟨Or.inl rfl,
   config_error_aborts ⟨none, true, none⟩ [("a", "Apple")] none [] (fun _ _ => none)
     (Or.inl rfl)⟩

/-! ### Claim C6 -/

/-- Claim C6, counterexample: a run whose pending set is empty (source
unchanged, every key already translated) makes no API call and exits
successfully, but the target file IS written — `main` falls through to
`json.dump` unconditionally — contradicting the claim's
"performs no file writes, leaving the on-disk target catalog file
untouched". -/
theorem empty_pending_still_writes_cex :
    pendingOfRun ⟨some "fr", true, some "workflow_dispatch"⟩
      [("a", "Apple"), ("b", "Banana")] (some [("a", "Pomme"), ("b", "Banane")]) [] = [] ∧
    (runScript ⟨some "fr", true, some "workflow_dispatch"⟩
      [("a", "Apple"), ("b", "Banana")] (some [("a", "Pomme"), ("b", "Banane")]) []
      (fun _ _ => none)).requests = [] ∧
    (runScript ⟨some "fr", true, some "workflow_dispatch"⟩
      [("a", "Apple"), ("b", "Banana")] (some [("a", "Pomme"), ("b", "Banane")]) []
      (fun _ _ => none)).status = ExitStatus.success ∧
    (runScript ⟨some "fr", true, some "workflow_dispatch"⟩
      [("a", "Apple"), ("b", "Banana")] (some [("a", "Pomme"), ("b", "Banane")]) []
      (fun _ _ => none)).written = some [("a", "Pomme"), ("b", "Banane")] := by
  decide

/-- Claim C6, amended: when the pending set of keys to translate is empty,
the engine makes no translation API call and exits successfully, but it
does not leave the file untouched: the target file is rewritten with the
pruned pre-existing target catalog reordered to the source catalog's key
order (the merge of an empty translation result). -/
theorem empty_pending_run (env : Env) (source : Catalog) (tf : Option Catalog)
    (ch : List String) (oracle : Nat → Catalog → Option Catalog) (t : String)
    (ht : env.targetLang = some t) (h1 : t ≠ "") (h2 : t ≠ SOURCE_LANG)
    (h3 : env.apiKeyPresent = true)
    (hpending : pendingOfRun env source tf ch = []) :
    runScript env source tf ch oracle =
      { status := .success, ranDiff := ranDiffFlag env, requests := [],
        written := some (mergeCatalogs source [] (targetDataOfRun source tf)) } := by
  unfold runScript
  rw [ht]
  simp [h1, h2, h3, translate_text_partitioned, hpending]

theorem empty_pending_run_witness :
    (Env.targetLang ⟨some "el", true, some "workflow_dispatch"⟩ = some "el") ∧
    pendingOfRun ⟨some "el", true, some "workflow_dispatch"⟩ [("a", "Apple")]
      (some [("a", "Alfa")]) [] = [] ∧
    runScript ⟨some "el", true, some "workflow_dispatch"⟩ [("a", "Apple")]
      (some [("a", "Alfa")]) [] (fun _ _ => none) =
      { status := .success,
        ranDiff := ranDiffFlag ⟨some "el", true, some "workflow_dispatch"⟩,
        requests := [],
        written := some (mergeCatalogs [("a", "Apple")] []
          (targetDataOfRun [("a", "Apple")] (some [("a", "Alfa")]))) } :=
  ⟨by decide, by decide,
   empty_pending_run ⟨some "el", true, some "workflow_dispatch"⟩ [("a", "Apple")]
     (some [("a", "Alfa")]) [] (fun _ _ => none) "el" (by decide) (by decide)
     (by decide) (by decide) (by decide)⟩

/-! ### Claim C5 -/

/-- Claim C5: when a batch's translation response does not parse (the
oracle answers `none`, so `translate_partition` returns the falsy `{}`),
the engine sends exactly one retry bearing the identical payload; if the
retry's response does not parse either, `translate_text_partitioned`
raises and the whole run aborts after exactly those two requests; and a
run that exits with a failure status never writes the target catalog
file. -/
theorem parse_failure_retry_abort (oracle : Nat → Catalog → Option Catalog)
    (p : Catalog) (rest : List Catalog) (n : Nat) (acc : Catalog)
    (h1 : oracle n p = none) :
    ((runBatchList oracle (p :: rest) n acc).2.take 2 = [(n, p), (n + 1, p)]) ∧
    (oracle (n + 1) p = none →
      runBatchList oracle (p :: rest) n acc = (none, [(n, p), (n + 1, p)])) ∧
    (∀ (env : Env) (source : Catalog) (tf : Option Catalog) (ch : List String)
        (oracle2 : Nat → Catalog → Option Catalog),
      (runScript env source tf ch oracle2).status = ExitStatus.failure →
      (runScript env source tf ch oracle2).written = none) := by
  refine ⟨?_, ?_, fun env source tf ch oracle2 h =>
    runScript_failure_no_write env source tf ch oracle2 h⟩
  · simp only [runBatchList, parseResponse, h1, Option.getD, List.isEmpty_nil, if_true]
    split <;> simp
  · intro h2
    simp [runBatchList, parseResponse, h1, h2]

theorem parse_failure_retry_abort_witness :
    ((fun (_ : Nat) (_ : Catalog) => (none : Option Catalog)) 0 [("a", "x")] = none) ∧
    (((runBatchList (fun _ _ => none) ([("a", "x")] :: []) 0 []).2.take 2
        = [(0, [("a", "x")]), (1, [("a", "x")])]) ∧
     ((fun (_ : Nat) (_ : Catalog) => (none : Option Catalog)) 1 [("a", "x")] = none →
        runBatchList (fun _ _ => none) ([("a", "x")] :: []) 0 []
          = (none, [(0, [("a", "x")]), (1, [("a", "x")])])) ∧
     (∀ (env : Env) (source : Catalog) (tf : Option Catalog) (ch : List String)
         (oracle2 : Nat → Catalog → Option Catalog),
       (runScript env source tf ch oracle2).status = ExitStatus.failure →
       (runScript env source tf ch oracle2).written = none)) :=
  ⟨rfl, parse_failure_retry_abort (fun _ _ => none) [("a", "x")] [] 0 [] rfl⟩

/-! ### Dictionary-update and membership lemmas for C7 -/

theorem contains_iff_mem (l : List String) (k : String) :
    l.contains k = true ↔ k ∈ l := by
  induction l with
  | nil => simp
  | cons a rest ih => by_cases h : k = a <;> simp [h, ih, List.contains_cons]

theorem mem_keys_iff (c : Catalog) (k : String) :
    k ∈ keys c ↔ ∃ kv, kv ∈ c ∧ kv.1 = k := by
  simp [keys, List.mem_map]

theorem keys_overwrite_value (d : Catalog) (k v : String) :
    keys (d.map fun kv => if kv.1 == k then (kv.1, v) else kv) = keys d := by
  induction d with
  | nil => rfl
  | cons kv rest ih =>
    simp only [List.map_cons, keys_cons, ih]
    by_cases h : kv.1 == k <;> simp [h]

theorem mem_keys_dictInsert (d : Catalog) (k v x : String) :
    x ∈ keys (dictInsert d k v) ↔ x ∈ keys d ∨ x = k := by
  unfold dictInsert
  by_cases h : (keys d).contains k = true
  · rw [if_pos h, keys_overwrite_value]
    constructor
    · exact Or.inl
    · rintro (hx | rfl)
      · exact hx
      · exact (contains_iff_mem _ _).mp h
  · rw [if_neg h]
    unfold keys
    rw [List.map_append]
    simp [keys, eq_comm]

theorem mem_keys_dictUpdate (d u : Catalog) (x : String) :
    x ∈ keys (dictUpdate d u) ↔ x ∈ keys d ∨ x ∈ keys u := by
  induction u generalizing d with
  | nil => simp [dictUpdate, keys]
  | cons kv rest ih =>
    show x ∈ keys (dictUpdate (dictInsert d kv.1 kv.2) rest) ↔ _
    rw [ih, mem_keys_dictInsert, keys_cons, List.mem_cons]
    tauto

theorem runBatchList_success_keys (oracle : Nat → Catalog → Option Catalog)
    (hor : ∀ m q r, oracle m q = some r → ∀ k, k ∈ keys q → k ∈ keys r) :
    ∀ (parts : List Catalog) (n : Nat) (acc res : Catalog),
      (runBatchList oracle parts n acc).1 = some res →
      ∀ k, (k ∈ keys acc ∨ ∃ part ∈ parts, k ∈ keys part) → k ∈ keys res := by
  intro parts
  induction parts with
  | nil =>
    intro n acc res h k hk
    simp only [runBatchList] at h
    rcases hk with hk | ⟨part, hp, -⟩
    · exact (Option.some.inj h) ▸ hk
    · simp at hp
  | cons p rest ih =>
    intro n acc res h k hk
    simp only [runBatchList] at h
    by_cases hc1 : (parseResponse (oracle n p)).isEmpty = true
    · rw [if_pos hc1] at h
      by_cases hc2 : (parseResponse (oracle (n + 1) p)).isEmpty = true
      · rw [if_pos hc2] at h
        exact Option.noConfusion h
      · rw [if_neg hc2] at h
        refine ih (n + 2) (dictUpdate acc (parseResponse (oracle (n + 1) p))) res h k ?_
        rcases hk with hk | ⟨part, hp, hkp⟩
        · exact Or.inl ((mem_keys_dictUpdate _ _ k).mpr (Or.inl hk))
        · rcases List.mem_cons.mp hp with heq | hp'
          · subst heq
            left
            refine (mem_keys_dictUpdate _ _ k).mpr (Or.inr ?_)
            cases horc : oracle (n + 1) part with
            | none =>
              rw [horc] at hc2
              simp [parseResponse] at hc2
            | some r0 =>
              exact hor (n + 1) part r0 horc k hkp
          · exact Or.inr ⟨part, hp', hkp⟩
    · rw [if_neg hc1] at h
      refine ih (n + 1) (dictUpdate acc (parseResponse (oracle n p))) res h k ?_
      rcases hk with hk | ⟨part, hp, hkp⟩
      · exact Or.inl ((mem_keys_dictUpdate _ _ k).mpr (Or.inl hk))
      · rcases List.mem_cons.mp hp with heq | hp'
        · subst heq
          left
          refine (mem_keys_dictUpdate _ _ k).mpr (Or.inr ?_)
          cases horc : oracle n part with
          | none =>
            rw [horc] at hc1
            simp [parseResponse] at hc1
          | some r0 =>
            exact hor n part r0 horc k hkp
        · exact Or.inr ⟨part, hp', hkp⟩

/-! ### Claim C7 -/

theorem mem_keys_pendingKeys (source target : Catalog) (changes : List String)
    (k : String) :
    k ∈ keys (pendingKeys source target changes) ↔
      k ∈ keys source ∧
        (!(keys target).contains k || changes.contains k) = true := by
  unfold pendingKeys
  constructor
  · intro h
    obtain ⟨kv, hmem, rfl⟩ := (mem_keys_iff _ _).mp h
    rw [List.mem_filter] at hmem
    exact ⟨(mem_keys_iff _ _).mpr ⟨kv, hmem.1, rfl⟩, hmem.2⟩
  · rintro ⟨hsrc, hpred⟩
    obtain ⟨kv, hmem, rfl⟩ := (mem_keys_iff _ _).mp hsrc
    exact (mem_keys_iff _ _).mpr ⟨kv, List.mem_filter.mpr ⟨hmem, hpred⟩, rfl⟩

theorem mem_keys_pruneTarget (target source : Catalog) (k : String) :
    k ∈ keys (pruneTarget target source) ↔
      k ∈ keys target ∧ (keys source).contains k = true := by
  unfold pruneTarget
  constructor
  · intro h
    obtain ⟨kv, hmem, rfl⟩ := (mem_keys_iff _ _).mp h
    rw [List.mem_filter] at hmem
    exact ⟨(mem_keys_iff _ _).mpr ⟨kv, hmem.1, rfl⟩, hmem.2⟩
  · rintro ⟨htgt, hpred⟩
    obtain ⟨kv, hmem, rfl⟩ := (mem_keys_iff _ _).mp htgt
    exact (mem_keys_iff _ _).mpr ⟨kv, List.mem_filter.mpr ⟨hmem, hpred⟩, rfl⟩

/-- Every source key ends up among the keys of the written catalog, given
the external-service contract that a parsed response covers the keys of
the batch that was sent. -/
theorem written_keys_cover_source (env : Env) (source : Catalog)
    (tf : Option Catalog) (ch : List String)
    (oracle : Nat → Catalog → Option Catalog) (c : Catalog)
    (hor : ∀ m q r, oracle m q = some r → ∀ k, k ∈ keys q → k ∈ keys r)
    (hw : (runScript env source tf ch oracle).written = some c) :
    ∀ k, k ∈ keys source → k ∈ keys c := by
  obtain ⟨translated, htr, rfl⟩ :=
    runScript_written_structure env source tf ch oracle c hw
  intro k hk
  by_cases hp : k ∈ keys (pendingOfRun env source tf ch)
  · refine mem_keys_mergeCatalogs source translated _ k hk (Or.inl ?_)
    unfold translate_text_partitioned at htr
    by_cases he : (pendingOfRun env source tf ch).isEmpty = true
    · rw [List.isEmpty_iff.mp he] at hp
      simp [keys] at hp
    · rw [if_neg he] at htr
      have hfl : (partitions 5000 (pendingOfRun env source tf ch)).flatten
          = pendingOfRun env source tf ch := by
        simpa using buildPartitions_flatten 5000 (pendingOfRun env source tf ch) [] 0
      obtain ⟨kv, hkv, rfl⟩ := (mem_keys_iff _ _).mp hp
      have hkvfl : kv ∈ (partitions 5000 (pendingOfRun env source tf ch)).flatten := by
        rw [hfl]; exact hkv
      obtain ⟨part, hpart, hkvpart⟩ := List.mem_flatten.mp hkvfl
      exact runBatchList_success_keys oracle hor _ 0 [] translated htr kv.1
        (Or.inr ⟨part, hpart, (mem_keys_iff _ _).mpr ⟨kv, hkvpart, rfl⟩⟩)
  · refine mem_keys_mergeCatalogs source translated _ k hk (Or.inr ?_)
    cases tf with
    | none => exact absurd hk hp
    | some td =>
      rw [show pendingOfRun env source (some td) ch
          = pendingKeys source (pruneTarget td source) (effChanges env ch) from rfl,
        mem_keys_pendingKeys] at hp
      have hpred : (!(keys (pruneTarget td source)).contains k
          || (effChanges env ch).contains k) = false := by
        cases hb : (!(keys (pruneTarget td source)).contains k
            || (effChanges env ch).contains k) with
        | true => exact absurd ⟨hk, hb⟩ hp
        | false => rfl
      rw [Bool.or_eq_false_iff] at hpred
      have hcont : (keys (pruneTarget td source)).contains k = true := by
        simpa using hpred.1
      exact (contains_iff_mem _ _).mp hcont

/-- Claim C7: running the engine twice in succession with no source changes,
where the first run succeeded in writing the target catalog and the
translation responses honoured the documented external-service contract
(response keys cover the request keys), leaves nothing to translate on the
second run: the pending set computed from the written catalog with an empty
changed-key list is empty, so no new translation request is made. -/
theorem second_run_pending_empty (env env2 : Env) (source : Catalog)
    (tf : Option Catalog) (ch : List String)
    (oracle : Nat → Catalog → Option Catalog) (c : Catalog)
    (hor : ∀ m q r, oracle m q = some r → ∀ k, k ∈ keys q → k ∈ keys r)
    (hw : (runScript env source tf ch oracle).written = some c) :
    pendingOfRun env2 source (some c) [] = [] := by
  have hsrc := written_keys_cover_source env source tf ch oracle c hor hw
  show pendingKeys source (pruneTarget c source) (effChanges env2 []) = []
  have heff : effChanges env2 [] = [] := by
    unfold effChanges; split <;> rfl
  rw [heff]
  unfold pendingKeys
  rw [List.filter_eq_nil_iff]
  intro kv hkv
  have hksrc : kv.1 ∈ keys source := (mem_keys_iff _ _).mpr ⟨kv, hkv, rfl⟩
  have hkc : kv.1 ∈ keys (pruneTarget c source) :=
    (mem_keys_pruneTarget c source kv.1).mpr
      ⟨hsrc kv.1 hksrc, (contains_iff_mem _ _).mpr hksrc⟩
  have hcont := (contains_iff_mem (keys (pruneTarget c source)) kv.1).mpr hkc
  rw [hcont]
  simp

theorem second_run_pending_empty_witness :
    ((runScript ⟨some "fr", true, some "workflow_dispatch"⟩ [("a", "Apple")] none []
        (fun _ q => some q)).written = some [("a", "Apple")]) ∧
    pendingOfRun ⟨some "fr", true, none⟩ [("a", "Apple")] (some [("a", "Apple")]) [] = [] :=
  ⟨by decide,
   second_run_pending_empty ⟨some "fr", true, some "workflow_dispatch"⟩
     ⟨some "fr", true, none⟩ [("a", "Apple")] none [] (fun _ q => some q)
     [("a", "Apple")] (fun _ _ _ h k hk => (Option.some.inj h) ▸ hk) (by decide)⟩

end AutoTranslate
